import Mathlib

/-!
Verification of the Müller root-finding demonstration program
(`muller-root-finding-arithmetic-method.cpp`).

The program's `double` arithmetic is embedded as exact rational
arithmetic (`ℚ`); the C library `sqrt` is irrational on rationals, so it
is carried as an explicit function parameter `sqrtf : ℚ → ℚ` — every
theorem below holds for an arbitrary interpretation of `sqrt`.  The four
`malloc`-ed history arrays are embedded as zero-initialised total
functions `ℕ → ℚ` updated pointwise, matching the program's
zero-initialisation loop; whether each of the four allocations succeeds
is a parameter (`AllocOk`), and allocation/release of the arrays is
recorded in an event trace so that resource-lifetime statements can be
made.  The uninitialised C variable `iters` is embedded as `Option ℕ`
with `none` standing for "never assigned".
-/

namespace Muller

/-- the fixed function of the program, `f(x) = x^6 - 2` (`function` in the
source; named `fn` because `function` is a keyword-like name in Lean). -/
def fn (x : ℚ) : ℚ := x ^ 6 - 2

/-- the `sign` function of the source: +1 for positive, -1 for negative,
0 for zero. -/
def sign (x : ℚ) : ℤ :=
  if x > 0 then 1 else if x < 0 then -1 else 0

/-- the `MAX_ITERATIONS` constant of the source. -/
def MAX_ITERATIONS : ℤ := 1000000

/-- the `MAX_TOLERANCES` constant of the source. -/
def MAX_TOLERANCES : ℤ := 40

/-- the `EXIT_SUCCESS` status of the C standard library. -/
def EXIT_SUCCESS : ℕ := 0

/-- the `EXIT_FAILURE` status of the C standard library. -/
def EXIT_FAILURE : ℕ := 1

/-- pointwise update of a history array: `upd f j v` is the array `f`
with slot `j` overwritten by `v` (an assignment `f[j] = v`). -/
def upd (f : ℕ → ℚ) (j : ℕ) (v : ℚ) : ℕ → ℚ :=
  fun i => if i = j then v else f i

/-- the mutable state of the solve: the four history arrays `x`, `y`,
`d`, `c`, the `iters` variable (`none` while still unassigned) and the
`find_root` flag. -/
structure St where
  x : ℕ → ℚ
  y : ℕ → ℚ
  d : ℕ → ℚ
  c : ℕ → ℚ
  iters : Option ℕ
  find_root : Bool

/-- the state right before the iteration loop: arrays zero-initialised,
then `x[0] = x0`, `x[1] = x1`, `x[2] = (x[0]+x[1])/2`,
`y[i] = f(x[i])` for `i = 0,1,2`, and `c[0] = (y[1]-y[0])/(x[1]-x[0])`,
in the order the source performs the writes. -/
def initSt (x0 x1 : ℚ) : St :=
  let xa := upd (upd (fun _ => 0) 0 x0) 1 x1
  let xb := upd xa 2 ((xa 0 + xa 1) / 2)
  let ya := upd (upd (upd (fun _ => 0) 0 (fn (xb 0))) 1 (fn (xb 1))) 2 (fn (xb 2))
  let ca := upd (fun _ => 0) 0 ((ya 1 - ya 0) / (xb 1 - xb 0))
  { x := xb, y := ya, d := fun _ => 0, c := ca, iters := none, find_root := false }

/-- the body of one loop iteration at index `i` (source lines 195-212):
```
iters = i;
c[i-1] = (y[i] - y[i-1]) / (x[i] - x[i-1]);
d[i-2] = (c[i-1] - c[i-2]) / (x[i] - x[i-2]);
s = c[i-1] + (x[i] - x[i-1]) * d[i-2];
x[i+1] = x[i] - 2*y[i] / (s + sign(s) * sqrt(abs(pow(s,2) - 4*y[i]*d[i])));
y[i+1] = function(x[i+1]);
```
Reads happen against the arrays as updated so far within the iteration,
exactly as in the source (in particular the discriminant reads array
slot `d[i]` after the write to `d[i-2]`). -/
def step (sqrtf : ℚ → ℚ) (i : ℕ) (st : St) : St :=
  let cb := upd st.c (i-1) ((st.y i - st.y (i-1)) / (st.x i - st.x (i-1)))
  let db := upd st.d (i-2) ((cb (i-1) - cb (i-2)) / (st.x i - st.x (i-2)))
  let s := cb (i-1) + (st.x i - st.x (i-1)) * db (i-2)
  let xb := upd st.x (i+1)
    (st.x i - 2 * st.y i / (s + (sign s : ℚ) * sqrtf |s ^ 2 - 4 * st.y i * db i|))
  let yb := upd st.y (i+1) (fn (xb (i+1)))
  { x := xb, y := yb, d := db, c := cb, iters := some i, find_root := st.find_root }

/-- the convergence message literal of the source. -/
def convMsg : String := "Method has converged to a root."

/-- the non-convergence message literal of the source. -/
def nonconvMsg : String := "Method it didn't reach the allowed tolerance."

/-- the iteration loop `for (i = 2; i < usr_iters; ++i)` with its
tolerance break, given as remaining fuel (`usr_iters - i`) plus the
current index; returns the final state together with the messages
printed inside the loop. -/
def loopGo (sqrtf : ℚ → ℚ) (tol : ℚ) : ℕ → ℕ → St → St × List String
  | 0, _, st => (st, [])
  | fuel + 1, i, st =>
    let st2 := step sqrtf i st
    if |st2.x (i+1) - st2.x i| < tol then
      ({ st2 with find_root := true }, [convMsg])
    else
      loopGo sqrtf tol fuel (i+1) st2

/-- the post-loop check (source lines 224-228):
`if (iters >= usr_iters-1) if (find_root == false)` print the
non-convergence message.  In C a run that never entered the loop would
read `iters` uninitialised; that situation is embedded as `none` (and is
proved unreachable for validated inputs). -/
def postMsg (N : ℕ) (st : St) : List String :=
  match st.iters with
  | none => []
  | some k => if N - 1 ≤ k ∧ st.find_root = false then [nonconvMsg] else []

/-- one printed row of the statistics table: the 1-based step number and
the four history values at the row's index. -/
structure Row where
  stepNo : ℕ
  rx : ℚ
  ry : ℚ
  rd : ℚ
  rc : ℚ
deriving DecidableEq

/-- the printed table (source lines 238-242): one row for each index
`0 ≤ i ≤ iters`, row `i` showing `i+1, x[i], y[i], d[i], c[i]`. -/
def tableRows (st : St) : List Row :=
  match st.iters with
  | none => []
  | some k =>
    (List.range (k+1)).map
      (fun i => { stepNo := i + 1, rx := st.x i, ry := st.y i, rd := st.d i, rc := st.c i })

/-- allocation / release events of the four history arrays. -/
inductive Ev where
  | allocEv (nm : String) (count : ℤ) (ok : Bool)
  | freeEv (nm : String)
deriving DecidableEq

/-- which of the four `malloc` calls succeed (environment parameter). -/
structure AllocOk where
  ax : Bool
  ay : Bool
  ad : Bool
  ac : Bool

/-- the environment in which every allocation succeeds. -/
def allocAll : AllocOk := { ax := true, ay := true, ad := true, ac := true }

/-- the four console inputs of a run. -/
structure Input where
  x0 : ℚ
  x1 : ℚ
  usr_iters : ℤ
  n : ℤ

/-- the observable result of a run: process exit status, how many console
inputs were read, the diagnostic / outcome messages printed, the
statistics table printed, and the allocation events. -/
structure Result where
  exit : ℕ
  reads : ℕ
  msgs : List String
  table : List Row
  events : List Ev

/-- the length `arr_size = usr_iters + 1` of each history array. -/
def arrSize (inp : Input) : ℤ := inp.usr_iters + 1

/-- the tolerance `tol = 0.5 * pow(10, -n)` (source line 177). -/
def tolOf (n : ℤ) : ℚ := (0.5 : ℚ) * (10 : ℚ) ^ (-n)

/-- the four `malloc` events, in source order, each requesting
`arr_size` doubles. -/
def allocEvents (a : AllocOk) (inp : Input) : List Ev :=
  [Ev.allocEv "x" (arrSize inp) a.ax, Ev.allocEv "y" (arrSize inp) a.ay,
   Ev.allocEv "d" (arrSize inp) a.ad, Ev.allocEv "c" (arrSize inp) a.ac]

/-- the four `free` events of the normal exit path (source lines 245-246). -/
def freeEvents : List Ev :=
  [Ev.freeEv "x", Ev.freeEv "y", Ev.freeEv "d", Ev.freeEv "c"]

/-- final state of the solve on validated input: the loop run from
index 2 with fuel `usr_iters - 2` on the seeded initial state. -/
def solveSt (sqrtf : ℚ → ℚ) (inp : Input) : St :=
  (loopGo sqrtf (tolOf inp.n) (inp.usr_iters.toNat - 2) 2 (initSt inp.x0 inp.x1)).1

/-- outcome messages of the solve: whatever the loop printed, followed by
the post-loop non-convergence check. -/
def solveMsgs (sqrtf : ℚ → ℚ) (inp : Input) : List String :=
  (loopGo sqrtf (tolOf inp.n) (inp.usr_iters.toNat - 2) 2 (initSt inp.x0 inp.x1)).2
    ++ postMsg inp.usr_iters.toNat (solveSt sqrtf inp)

/-- the whole program (`main`): validation checks in source order with
their messages and early failure exits, the allocation check, then the
solve, table printing, release of the arrays and the success exit.
`reads` counts how many of the four console inputs were consumed before
the program decided its outcome. -/
def run (sqrtf : ℚ → ℚ) (a : AllocOk) (inp : Input) : Result :=
  if inp.x0 = inp.x1 then
    { exit := EXIT_FAILURE, reads := 2,
      msgs := ["Values x0, x1 should be different."], table := [], events := [] }
  else if inp.usr_iters ≤ 2 ∨ inp.usr_iters > MAX_ITERATIONS then
    { exit := EXIT_FAILURE, reads := 3,
      msgs := ["Iterations value: 2<i<=" ++ toString MAX_ITERATIONS],
      table := [], events := [] }
  else if inp.n ≤ 0 ∨ inp.n > MAX_TOLERANCES then
    { exit := EXIT_FAILURE, reads := 4,
      msgs := ["Tolerance value: 0<t<=" ++ toString MAX_TOLERANCES],
      table := [], events := [] }
  else if a.ax = false ∨ a.ay = false ∨ a.ad = false ∨ a.ac = false then
    { exit := EXIT_FAILURE, reads := 4,
      msgs := ["Dynamic memory allocation problem (" ++ toString (arrSize inp * 8) ++ " bytes)."],
      table := [], events := allocEvents a inp }
  else
    { exit := EXIT_SUCCESS, reads := 4,
      msgs := solveMsgs sqrtf inp,
      table := tableRows (solveSt sqrtf inp),
      events := allocEvents a inp ++ freeEvents }

/-- the three validation constraints of the source, conjoined. -/
def validInput (inp : Input) : Prop :=
  inp.x0 ≠ inp.x1 ∧ 2 < inp.usr_iters ∧ inp.usr_iters ≤ MAX_ITERATIONS ∧
    0 < inp.n ∧ inp.n ≤ MAX_TOLERANCES

instance (inp : Input) : Decidable (validInput inp) :=
  inferInstanceAs (Decidable (_ ∧ _ ∧ _ ∧ _ ∧ _))

/-- the loop without its break: `plainIter sqrtf k i st` applies the loop
body at indices `i, i+1, …, i+k-1`. -/
def plainIter (sqrtf : ℚ → ℚ) : ℕ → ℕ → St → St
  | 0, _, st => st
  | k + 1, i, st => plainIter sqrtf k (i+1) (step sqrtf i st)

/-- the tolerance test of iteration `i` as evaluated on the state the
iteration produces: `|x[i+1] - x[i]| < tol`. -/
def stepCond (sqrtf : ℚ → ℚ) (tol : ℚ) (i : ℕ) (st : St) : Prop :=
  |(step sqrtf i st).x (i+1) - (step sqrtf i st).x i| < tol

instance (sqrtf : ℚ → ℚ) (tol : ℚ) (i : ℕ) (st : St) :
    Decidable (stepCond sqrtf tol i st) :=
  inferInstanceAs (Decidable (_ < _))

/-- the first divided difference written by iteration `i`, expressed on
the state at the start of the iteration: `(y[i] - y[i-1])/(x[i] - x[i-1])`. -/
def cVal (st : St) (i : ℕ) : ℚ :=
  (st.y i - st.y (i-1)) / (st.x i - st.x (i-1))

/-- the second divided difference written by iteration `i`, expressed on
the state at the start of the iteration:
`(c[i-1] - c[i-2])/(x[i] - x[i-2])` with `c[i-1]` the value just
computed and `c[i-2]` the recorded history value. -/
def dVal (st : St) (i : ℕ) : ℚ :=
  (cVal st i - st.c (i-2)) / (st.x i - st.x (i-2))

/-- the `s` quantity of iteration `i`: `c[i-1] + (x[i] - x[i-1])*d[i-2]`. -/
def sVal (st : St) (i : ℕ) : ℚ :=
  cVal st i + (st.x i - st.x (i-1)) * dVal st i

/-- the next approximation written by iteration `i`:
`x[i] - 2*y[i] / (s + sign(s)*sqrt(|s^2 - 4*y[i]*d[i]|))`, where `d[i]`
is the recorded history slot of the `d` array (untouched by the
iteration's own write to `d[i-2]`). -/
def xNext (sqrtf : ℚ → ℚ) (st : St) (i : ℕ) : ℚ :=
  st.x i - 2 * st.y i /
    (sVal st i + (sign (sVal st i) : ℚ) * sqrtf |sVal st i ^ 2 - 4 * st.y i * st.d i|)

theorem upd_self (f : ℕ → ℚ) (j : ℕ) (v : ℚ) : upd f j v j = v := by
  simp [upd]

theorem upd_other (f : ℕ → ℚ) (j i : ℕ) (v : ℚ) (h : i ≠ j) : upd f j v i = f i := by
  simp [upd, h]

theorem idx1 (k : ℕ) : k + 2 - 1 = k + 1 := by omega

theorem idx2 (k : ℕ) : k + 2 - 2 = k := by omega

theorem step_iters_eq (sqrtf : ℚ → ℚ) (i : ℕ) (st : St) :
    (step sqrtf i st).iters = some i := rfl

theorem step_find_eq (sqrtf : ℚ → ℚ) (i : ℕ) (st : St) :
    (step sqrtf i st).find_root = st.find_root := rfl

/-- iteration `k+2` rewrites the whole state as four slot updates: the
`c` write at `k+1`, the `d` write at `k`, the `x` write at `k+3` and the
`y` write at `k+3`, with values `cVal`, `dVal`, `xNext`, `fn ∘ xNext`. -/
theorem step_eq (sqrtf : ℚ → ℚ) (k : ℕ) (st : St) :
    step sqrtf (k+2) st =
      { x := upd st.x (k+3) (xNext sqrtf st (k+2)),
        y := upd st.y (k+3) (fn (xNext sqrtf st (k+2))),
        d := upd st.d k (dVal st (k+2)),
        c := upd st.c (k+1) (cVal st (k+2)),
        iters := some (k+2),
        find_root := st.find_root } := by
  have hck : upd st.c (k+1) (cVal st (k+2)) (k+1) = cVal st (k+2) := upd_self _ _ _
  have hck2 : upd st.c (k+1) (cVal st (k+2)) k = st.c k :=
    upd_other _ _ _ _ (by omega)
  have hdk : upd st.d k (dVal st (k+2)) k = dVal st (k+2) := upd_self _ _ _
  have hdk2 : upd st.d k (dVal st (k+2)) (k+2) = st.d (k+2) :=
    upd_other _ _ _ _ (by omega)
  have h3 : k + 2 + 1 = k + 3 := by omega
  simp only [step]
  rw [idx1, idx2, h3]
  have hc : ((st.y (k+2) - st.y (k+1)) / (st.x (k+2) - st.x (k+1))) = cVal st (k+2) := by
    rw [cVal, idx1]
  rw [hc]
  have hd : ((upd st.c (k+1) (cVal st (k+2)) (k+1) - upd st.c (k+1) (cVal st (k+2)) k) /
          (st.x (k+2) - st.x k))
      = dVal st (k+2) := by
    rw [hck, hck2, dVal, idx2]
  rw [hd]
  have hs : upd st.c (k+1) (cVal st (k+2)) (k+1) + (st.x (k+2) - st.x (k+1)) *
        upd st.d k (dVal st (k+2)) k = sVal st (k+2) := by
    rw [hck, hdk, sVal, idx1]
  rw [hs, hdk2]
  have hx : st.x (k+2) - 2 * st.y (k+2) /
        (sVal st (k+2) + (sign (sVal st (k+2)) : ℚ) *
          sqrtf |sVal st (k+2) ^ 2 - 4 * st.y (k+2) * st.d (k+2)|)
      = xNext sqrtf st (k+2) := by
    rw [xNext]
  rw [hx]
  have hxv : upd st.x (k+3) (xNext sqrtf st (k+2)) (k+3) = xNext sqrtf st (k+2) :=
    upd_self _ _ _
  rw [hxv]

theorem plainIter_find (sqrtf : ℚ → ℚ) :
    ∀ (k i : ℕ) (st : St), (plainIter sqrtf k i st).find_root = st.find_root := by
  intro k
  induction k with
  | zero => intro i st; rfl
  | succ m ih =>
    intro i st
    show (plainIter sqrtf m (i+1) (step sqrtf i st)).find_root = st.find_root
    rw [ih (i+1) (step sqrtf i st), step_find_eq]

theorem plainIter_iters (sqrtf : ℚ → ℚ) :
    ∀ (k i : ℕ) (st : St), 1 ≤ k → (plainIter sqrtf k i st).iters = some (i + k - 1) := by
  intro k
  induction k with
  | zero => intro i st h; exact absurd h (by omega)
  | succ m ih =>
    intro i st _
    cases m with
    | zero =>
      show (step sqrtf i st).iters = some (i + 1 - 1)
      rw [step_iters_eq]
      simp
    | succ m2 =>
      show (plainIter sqrtf (m2+1) (i+1) (step sqrtf i st)).iters = some (i + (m2+2) - 1)
      rw [ih (i+1) (step sqrtf i st) (by omega)]
      congr 1
      omega

theorem plainIter_succ_last (sqrtf : ℚ → ℚ) :
    ∀ (k i : ℕ) (st : St),
      plainIter sqrtf (k+1) i st = step sqrtf (i+k) (plainIter sqrtf k i st) := by
  intro k
  induction k with
  | zero =>
    intro i st
    show step sqrtf i st = step sqrtf (i+0) (plainIter sqrtf 0 i st)
    rw [Nat.add_zero]
    rfl
  | succ m ih =>
    intro i st
    show plainIter sqrtf (m+1) (i+1) (step sqrtf i st) = _
    rw [ih (i+1) (step sqrtf i st)]
    have hidx : i + 1 + m = i + (m+1) := by omega
    rw [hidx]
    rfl

/-- if no iteration within the fuel satisfies the tolerance test, the
loop runs its whole range, printing nothing, and equals the break-free
iteration of the body. -/
theorem loopGo_no_break (sqrtf : ℚ → ℚ) (tol : ℚ) :
    ∀ (fuel i : ℕ) (st : St),
      (∀ m, m < fuel → ¬ stepCond sqrtf tol (i+m) (plainIter sqrtf m i st)) →
      loopGo sqrtf tol fuel i st = (plainIter sqrtf fuel i st, []) := by
  intro fuel
  induction fuel with
  | zero => intro i st _; rfl
  | succ f ih =>
    intro i st h
    have h0 : ¬ (|(step sqrtf i st).x (i+1) - (step sqrtf i st).x i| < tol) := by
      have h1 := h 0 (by omega)
      rw [Nat.add_zero] at h1
      exact h1
    show (if |(step sqrtf i st).x (i+1) - (step sqrtf i st).x i| < tol then _ else _) = _
    rw [if_neg h0]
    have hshift : ∀ m, m < f →
        ¬ stepCond sqrtf tol ((i+1)+m) (plainIter sqrtf m (i+1) (step sqrtf i st)) := by
      intro m hm
      have h2 := h (m+1) (by omega)
      have hidx : i + (m+1) = (i+1) + m := by omega
      rw [hidx] at h2
      exact h2
    exact ih (i+1) (step sqrtf i st) hshift

/-- if `k0` is the first iteration offset whose tolerance test succeeds
and it lies within the fuel, the loop stops right after that iteration,
sets the flag, prints the convergence message, and the state is the
break-free iteration of the body up to and including that step. -/
theorem loopGo_break (sqrtf : ℚ → ℚ) (tol : ℚ) :
    ∀ (fuel i : ℕ) (st : St) (k0 : ℕ),
      k0 < fuel →
      stepCond sqrtf tol (i+k0) (plainIter sqrtf k0 i st) →
      (∀ m, m < k0 → ¬ stepCond sqrtf tol (i+m) (plainIter sqrtf m i st)) →
      loopGo sqrtf tol fuel i st =
        ({ plainIter sqrtf (k0+1) i st with find_root := true }, [convMsg]) := by
  intro fuel
  induction fuel with
  | zero => intro i st k0 h; exact absurd h (by omega)
  | succ f ih =>
    intro i st k0 hlt hc hmin
    cases k0 with
    | zero =>
      have hc0 : |(step sqrtf i st).x (i+1) - (step sqrtf i st).x i| < tol := by
        have h1 : stepCond sqrtf tol i (plainIter sqrtf 0 i st) := by
          have := hc
          rw [Nat.add_zero] at this
          exact this
        exact h1
      show (if |(step sqrtf i st).x (i+1) - (step sqrtf i st).x i| < tol then _ else _) = _
      rw [if_pos hc0]
      rfl
    | succ m =>
      have h0 : ¬ (|(step sqrtf i st).x (i+1) - (step sqrtf i st).x i| < tol) := by
        have h1 := hmin 0 (by omega)
        rw [Nat.add_zero] at h1
        exact h1
      show (if |(step sqrtf i st).x (i+1) - (step sqrtf i st).x i| < tol then _ else _) = _
      rw [if_neg h0]
      have hc2 : stepCond sqrtf tol ((i+1)+m) (plainIter sqrtf m (i+1) (step sqrtf i st)) := by
        have hidx : i + (m+1) = (i+1) + m := by omega
        rw [hidx] at hc
        exact hc
      have hmin2 : ∀ m2, m2 < m →
          ¬ stepCond sqrtf tol ((i+1)+m2) (plainIter sqrtf m2 (i+1) (step sqrtf i st)) := by
        intro m2 hm2
        have h2 := hmin (m2+1) (by omega)
        have hidx : i + (m2+1) = (i+1) + m2 := by omega
        rw [hidx] at h2
        exact h2
      exact ih (i+1) (step sqrtf i st) m (by omega) hc2 hmin2

theorem valid_N (inp : Input) (hv : validInput inp) : 3 ≤ inp.usr_iters.toNat := by
  obtain ⟨-, h2, h3, -, -⟩ := hv
  omega

/-- every validated solve falls in exactly one of two cases: either no
iteration within the budget passes the tolerance test — then the loop
exhausts its range, the flag stays false, the last step index is
`usr_iters - 1` and the non-convergence message is the one printed — or
there is a first iteration offset `k0` passing the test — then the loop
stops there with the flag set, the last step index is `2 + k0` and the
convergence message is the one printed. -/
theorem solve_cases (sqrtf : ℚ → ℚ) (inp : Input) (hv : validInput inp) :
    ((∀ m, m < inp.usr_iters.toNat - 2 →
        ¬ stepCond sqrtf (tolOf inp.n) (2+m) (plainIter sqrtf m 2 (initSt inp.x0 inp.x1))) ∧
      solveSt sqrtf inp = plainIter sqrtf (inp.usr_iters.toNat - 2) 2 (initSt inp.x0 inp.x1) ∧
      (solveSt sqrtf inp).find_root = false ∧
      (solveSt sqrtf inp).iters = some (inp.usr_iters.toNat - 1) ∧
      solveMsgs sqrtf inp = [nonconvMsg])
    ∨
    (∃ k0, k0 < inp.usr_iters.toNat - 2 ∧
      stepCond sqrtf (tolOf inp.n) (2+k0) (plainIter sqrtf k0 2 (initSt inp.x0 inp.x1)) ∧
      (∀ m, m < k0 →
        ¬ stepCond sqrtf (tolOf inp.n) (2+m) (plainIter sqrtf m 2 (initSt inp.x0 inp.x1))) ∧
      solveSt sqrtf inp =
        { plainIter sqrtf (k0+1) 2 (initSt inp.x0 inp.x1) with find_root := true } ∧
      (solveSt sqrtf inp).find_root = true ∧
      (solveSt sqrtf inp).iters = some (2+k0) ∧
      solveMsgs sqrtf inp = [convMsg]) := by
  have hN : 3 ≤ inp.usr_iters.toNat := valid_N inp hv
  by_cases hex : ∃ m, m < inp.usr_iters.toNat - 2 ∧
      stepCond sqrtf (tolOf inp.n) (2+m) (plainIter sqrtf m 2 (initSt inp.x0 inp.x1))
  · right
    have hspec := Nat.find_spec hex
    have hmin : ∀ m, m < Nat.find hex →
        ¬ stepCond sqrtf (tolOf inp.n) (2+m) (plainIter sqrtf m 2 (initSt inp.x0 inp.x1)) := by
      intro m hm hc
      exact Nat.find_min hex hm ⟨by omega, hc⟩
    have hloop := loopGo_break sqrtf (tolOf inp.n) (inp.usr_iters.toNat - 2) 2
      (initSt inp.x0 inp.x1) (Nat.find hex) hspec.1 hspec.2 hmin
    have hsolve : solveSt sqrtf inp =
        { plainIter sqrtf (Nat.find hex + 1) 2 (initSt inp.x0 inp.x1) with find_root := true } := by
      rw [solveSt, hloop]
    refine ⟨Nat.find hex, hspec.1, hspec.2, hmin, hsolve, ?_, ?_, ?_⟩
    · rw [hsolve]
    · rw [hsolve]
      show (plainIter sqrtf (Nat.find hex + 1) 2 (initSt inp.x0 inp.x1)).iters = _
      rw [plainIter_iters sqrtf (Nat.find hex + 1) 2 (initSt inp.x0 inp.x1) (by omega)]
      simp
    · rw [solveMsgs, hloop, hsolve]
      have hit2 : (plainIter sqrtf (Nat.find hex + 1) 2 (initSt inp.x0 inp.x1)).iters
          = some (2 + Nat.find hex) := by
        rw [plainIter_iters sqrtf (Nat.find hex + 1) 2 (initSt inp.x0 inp.x1) (by omega)]
        simp
      simp [postMsg, hit2]
  · left
    have hnone : ∀ m, m < inp.usr_iters.toNat - 2 →
        ¬ stepCond sqrtf (tolOf inp.n) (2+m) (plainIter sqrtf m 2 (initSt inp.x0 inp.x1)) := by
      intro m hm hc
      exact hex ⟨m, hm, hc⟩
    have hloop := loopGo_no_break sqrtf (tolOf inp.n) (inp.usr_iters.toNat - 2) 2
      (initSt inp.x0 inp.x1) hnone
    have hsolve : solveSt sqrtf inp =
        plainIter sqrtf (inp.usr_iters.toNat - 2) 2 (initSt inp.x0 inp.x1) := by
      rw [solveSt, hloop]
    have hfr : (solveSt sqrtf inp).find_root = false := by
      rw [hsolve, plainIter_find]
      rfl
    have hit : (solveSt sqrtf inp).iters = some (inp.usr_iters.toNat - 1) := by
      rw [hsolve, plainIter_iters sqrtf (inp.usr_iters.toNat - 2) 2
        (initSt inp.x0 inp.x1) (by omega)]
      congr 1
      omega
    refine ⟨hnone, hsolve, hfr, hit, ?_⟩
    rw [solveMsgs, hloop]
    simp [postMsg, hit, hfr]

/-- slots of the `d` array at or beyond `i - 2` are untouched by the
iterations starting at index `i`. -/
theorem plainIter_d_zero (sqrtf : ℚ → ℚ) :
    ∀ (k i : ℕ) (st : St), 2 ≤ i →
      (∀ m, i ≤ m + 2 → st.d m = 0) →
      (∀ m, i + k ≤ m + 2 → (plainIter sqrtf k i st).d m = 0) := by
  intro k
  induction k with
  | zero => intro i st _ h m hm; exact h m (by omega)
  | succ p ih =>
    intro i st hi h m hm
    show (plainIter sqrtf p (i+1) (step sqrtf i st)).d m = 0
    refine ih (i+1) (step sqrtf i st) (by omega) ?_ m (by omega)
    intro m2 hm2
    obtain ⟨k2, rfl⟩ : ∃ k2, i = k2 + 2 := ⟨i - 2, by omega⟩
    rw [step_eq]
    show upd st.d k2 (dVal st (k2+2)) m2 = 0
    rw [upd_other _ _ _ _ (by omega)]
    exact h m2 (by omega)

/-- slots of the `c` array at or beyond `i - 1` are untouched by the
iterations starting at index `i`. -/
theorem plainIter_c_zero (sqrtf : ℚ → ℚ) :
    ∀ (k i : ℕ) (st : St), 2 ≤ i →
      (∀ m, i ≤ m + 1 → st.c m = 0) →
      (∀ m, i + k ≤ m + 1 → (plainIter sqrtf k i st).c m = 0) := by
  intro k
  induction k with
  | zero => intro i st _ h m hm; exact h m (by omega)
  | succ p ih =>
    intro i st hi h m hm
    show (plainIter sqrtf p (i+1) (step sqrtf i st)).c m = 0
    refine ih (i+1) (step sqrtf i st) (by omega) ?_ m (by omega)
    intro m2 hm2
    obtain ⟨k2, rfl⟩ : ∃ k2, i = k2 + 2 := ⟨i - 2, by omega⟩
    rw [step_eq]
    show upd st.c (k2+1) (cVal st (k2+2)) m2 = 0
    rw [upd_other _ _ _ _ (by omega)]
    exact h m2 (by omega)

theorem initSt_d (x0 x1 : ℚ) (m : ℕ) : (initSt x0 x1).d m = 0 := rfl

theorem initSt_c_zero (x0 x1 : ℚ) (m : ℕ) (h : 1 ≤ m) : (initSt x0 x1).c m = 0 := by
  simp only [initSt, upd]
  rw [if_neg (by omega : ¬ m = 0)]

theorem initSt_x0 (x0 x1 : ℚ) : (initSt x0 x1).x 0 = x0 := by
  simp [initSt, upd]

theorem initSt_x1 (x0 x1 : ℚ) : (initSt x0 x1).x 1 = x1 := by
  simp [initSt, upd]

theorem initSt_x2 (x0 x1 : ℚ) : (initSt x0 x1).x 2 = (x0 + x1) / 2 := by
  simp [initSt, upd]

theorem initSt_y0 (x0 x1 : ℚ) : (initSt x0 x1).y 0 = fn x0 := by
  simp [initSt, upd]

theorem initSt_y1 (x0 x1 : ℚ) : (initSt x0 x1).y 1 = fn x1 := by
  simp [initSt, upd]

theorem initSt_y2 (x0 x1 : ℚ) : (initSt x0 x1).y 2 = fn ((x0 + x1) / 2) := by
  simp [initSt, upd]

theorem initSt_c0 (x0 x1 : ℚ) : (initSt x0 x1).c 0 = (fn x1 - fn x0) / (x1 - x0) := by
  simp [initSt, upd]

theorem initSt_find (x0 x1 : ℚ) : (initSt x0 x1).find_root = false := rfl

theorem tableRows_length (st : St) (k : ℕ) (h : st.iters = some k) :
    (tableRows st).length = k + 1 := by
  simp [tableRows, h]

theorem tableRows_get (st : St) (k : ℕ) (h : st.iters = some k) (j : ℕ)
    (hj : j < (tableRows st).length) :
    (tableRows st).get ⟨j, hj⟩ =
      { stepNo := j + 1, rx := st.x j, ry := st.y j, rd := st.d j, rc := st.c j } := by
  have hj2 : j < k + 1 := by
    rw [tableRows_length st k h] at hj
    exact hj
  simp [tableRows, h, List.get_eq_getElem]

/-- on validated input with all allocations succeeding, the program runs
the solve and exits successfully, printing the solve's messages and the
table, and releasing the four arrays. -/
theorem run_valid_eq (sqrtf : ℚ → ℚ) (inp : Input) (hv : validInput inp) :
    run sqrtf allocAll inp =
      { exit := EXIT_SUCCESS, reads := 4, msgs := solveMsgs sqrtf inp,
        table := tableRows (solveSt sqrtf inp),
        events := allocEvents allocAll inp ++ freeEvents } := by
  obtain ⟨h1, h2, h3, h4, h5⟩ := hv
  rw [run, if_neg h1, if_neg ?_, if_neg ?_, if_neg ?_]
  · intro hor
    rcases hor with h | h | h | h
    all_goals simp [allocAll] at h
  · intro hor
    rcases hor with h | h
    · omega
    · exact absurd h5 (not_le.mpr h)
  · intro hor
    rcases hor with h | h
    · omega
    · exact absurd h3 (not_le.mpr h)

theorem run_dup_eq (sqrtf : ℚ → ℚ) (a : AllocOk) (inp : Input) (h : inp.x0 = inp.x1) :
    run sqrtf a inp =
      { exit := EXIT_FAILURE, reads := 2,
        msgs := ["Values x0, x1 should be different."], table := [], events := [] } := by
  rw [run, if_pos h]

theorem run_iterbad_eq (sqrtf : ℚ → ℚ) (a : AllocOk) (inp : Input)
    (h1 : inp.x0 ≠ inp.x1) (h2 : inp.usr_iters ≤ 2 ∨ inp.usr_iters > MAX_ITERATIONS) :
    run sqrtf a inp =
      { exit := EXIT_FAILURE, reads := 3,
        msgs := ["Iterations value: 2<i<=" ++ toString MAX_ITERATIONS],
        table := [], events := [] } := by
  rw [run, if_neg h1, if_pos h2]

theorem run_tolbad_eq (sqrtf : ℚ → ℚ) (a : AllocOk) (inp : Input)
    (h1 : inp.x0 ≠ inp.x1) (h2 : ¬ (inp.usr_iters ≤ 2 ∨ inp.usr_iters > MAX_ITERATIONS))
    (h3 : inp.n ≤ 0 ∨ inp.n > MAX_TOLERANCES) :
    run sqrtf a inp =
      { exit := EXIT_FAILURE, reads := 4,
        msgs := ["Tolerance value: 0<t<=" ++ toString MAX_TOLERANCES],
        table := [], events := [] } := by
  rw [run, if_neg h1, if_neg h2, if_pos h3]

theorem run_allocbad_eq (sqrtf : ℚ → ℚ) (a : AllocOk) (inp : Input)
    (h1 : inp.x0 ≠ inp.x1) (h2 : ¬ (inp.usr_iters ≤ 2 ∨ inp.usr_iters > MAX_ITERATIONS))
    (h3 : ¬ (inp.n ≤ 0 ∨ inp.n > MAX_TOLERANCES))
    (h4 : a.ax = false ∨ a.ay = false ∨ a.ad = false ∨ a.ac = false) :
    run sqrtf a inp =
      { exit := EXIT_FAILURE, reads := 4,
        msgs := ["Dynamic memory allocation problem (" ++ toString (arrSize inp * 8)
          ++ " bytes)."],
        table := [], events := allocEvents a inp } := by
  rw [run, if_neg h1, if_neg h2, if_neg h3, if_pos h4]

/-- C6: the `sign` function returns exactly +1 on positives, -1 on
negatives and 0 at zero, so at `s = 0` the denominator
`s + sign(s)·sqrt(…)` of the `x[i+1]` update collapses to 0 — the sqrt
term vanishes entirely. -/
theorem muller_C6 (v : ℚ) :
    (0 < v → sign v = 1) ∧ (v < 0 → sign v = -1) ∧ (v = 0 → sign v = 0) ∧
    (∀ (sqrtf : ℚ → ℚ) (st : St) (i : ℕ), sVal st i = 0 →
      sVal st i + (sign (sVal st i) : ℚ) *
        sqrtf |sVal st i ^ 2 - 4 * st.y i * st.d i| = 0) := by
  refine ⟨?_, ?_, ?_, ?_⟩
  · intro h
    rw [sign, if_pos h]
  · intro h
    rw [sign, if_neg (by linarith), if_pos h]
  · intro h
    rw [sign, if_neg (by simp [h]), if_neg (by simp [h])]
  · intro sqrtf st i h
    rw [h]
    simp [sign]

/-- witness for C6 at `v = 1`, `v = -1`, `v = 0`. -/
theorem muller_C6_w :
    sign 1 = 1 ∧ sign (-1) = -1 ∧ sign 0 = 0 ∧
    (sVal (initSt 0 4) 5 = 0 →
      sVal (initSt 0 4) 5 + (sign (sVal (initSt 0 4) 5) : ℚ) *
        (fun q : ℚ => q) |sVal (initSt 0 4) 5 ^ 2 -
          4 * (initSt 0 4).y 5 * (initSt 0 4).d 5| = 0) :=
  ⟨(muller_C6 1).1 (by norm_num), (muller_C6 (-1)).2.1 (by norm_num),
   (muller_C6 0).2.2.1 rfl, (muller_C6 0).2.2.2 (fun q => q) (initSt 0 4) 5⟩

/-- C1: iteration `i` (for `2 ≤ i`) computes
`c[i-1] = (y[i]-y[i-1])/(x[i]-x[i-1])`,
`d[i-2] = (c[i-1]-c[i-2])/(x[i]-x[i-2])` (with `c[i-2]` the history
slot), `s = c[i-1] + (x[i]-x[i-1])·d[i-2]`, then
`x[i+1] = x[i] - 2·y[i]/(s + sign(s)·sqrt(|s²-4·y[i]·d[i]|))` where the
discriminant reads the history slot `d[i]` — which the iteration leaves
untouched (its own write is at `d[i-2]`) — and finally
`y[i+1] = f(x[i+1])`. -/
theorem muller_C1 (sqrtf : ℚ → ℚ) (st : St) (i : ℕ) (hi : 2 ≤ i) :
    (step sqrtf i st).c (i-1) = (st.y i - st.y (i-1)) / (st.x i - st.x (i-1)) ∧
    (step sqrtf i st).d (i-2) =
      ((step sqrtf i st).c (i-1) - st.c (i-2)) / (st.x i - st.x (i-2)) ∧
    sVal st i = (step sqrtf i st).c (i-1) +
      (st.x i - st.x (i-1)) * (step sqrtf i st).d (i-2) ∧
    (step sqrtf i st).x (i+1) =
      st.x i - 2 * st.y i /
        (sVal st i + (sign (sVal st i) : ℚ) *
          sqrtf |sVal st i ^ 2 - 4 * st.y i * st.d i|) ∧
    (step sqrtf i st).d i = st.d i ∧
    (step sqrtf i st).y (i+1) = fn ((step sqrtf i st).x (i+1)) := by
  obtain ⟨k, rfl⟩ : ∃ k, i = k + 2 := ⟨i - 2, by omega⟩
  have h3 : k + 2 + 1 = k + 3 := by omega
  refine ⟨?_, ?_, ?_, ?_, ?_, ?_⟩
  · rw [idx1, step_eq]
    show upd st.c (k+1) (cVal st (k+2)) (k+1) =
      (st.y (k+2) - st.y (k+1)) / (st.x (k+2) - st.x (k+1))
    rw [upd_self, cVal, idx1]
  · rw [idx1, idx2, step_eq]
    show upd st.d k (dVal st (k+2)) k =
      (upd st.c (k+1) (cVal st (k+2)) (k+1) - st.c k) / (st.x (k+2) - st.x k)
    rw [upd_self, upd_self, dVal, idx2]
  · rw [idx1, idx2, step_eq]
    show sVal st (k+2) = upd st.c (k+1) (cVal st (k+2)) (k+1) +
      (st.x (k+2) - st.x (k+1)) * upd st.d k (dVal st (k+2)) k
    rw [upd_self, upd_self, sVal, idx1]
  · rw [h3, step_eq]
    show upd st.x (k+3) (xNext sqrtf st (k+2)) (k+3) = _
    rw [upd_self, xNext]
  · rw [step_eq]
    show upd st.d k (dVal st (k+2)) (k+2) = st.d (k+2)
    rw [upd_other _ _ _ _ (by omega)]
  · rw [h3, step_eq]
    show upd st.y (k+3) (fn (xNext sqrtf st (k+2))) (k+3) =
      fn (upd st.x (k+3) (xNext sqrtf st (k+2)) (k+3))
    rw [upd_self, upd_self]

/-- witness for C1 at iteration 2 on the seeded state for `x0 = 0`,
`x1 = 4`, with `sqrt` interpreted as the identity. -/
theorem muller_C1_w :
    (step (fun q => q) 2 (initSt 0 4)).c 1 =
      ((initSt 0 4).y 2 - (initSt 0 4).y 1) / ((initSt 0 4).x 2 - (initSt 0 4).x 1) ∧
    (step (fun q => q) 2 (initSt 0 4)).d 0 =
      ((step (fun q => q) 2 (initSt 0 4)).c 1 - (initSt 0 4).c 0) /
        ((initSt 0 4).x 2 - (initSt 0 4).x 0) ∧
    sVal (initSt 0 4) 2 = (step (fun q => q) 2 (initSt 0 4)).c 1 +
      ((initSt 0 4).x 2 - (initSt 0 4).x 1) * (step (fun q => q) 2 (initSt 0 4)).d 0 ∧
    (step (fun q => q) 2 (initSt 0 4)).x 3 =
      (initSt 0 4).x 2 - 2 * (initSt 0 4).y 2 /
        (sVal (initSt 0 4) 2 + (sign (sVal (initSt 0 4) 2) : ℚ) *
          (fun q : ℚ => q)
            |sVal (initSt 0 4) 2 ^ 2 - 4 * (initSt 0 4).y 2 * (initSt 0 4).d 2|) ∧
    (step (fun q => q) 2 (initSt 0 4)).d 2 = (initSt 0 4).d 2 ∧
    (step (fun q => q) 2 (initSt 0 4)).y 3 = fn ((step (fun q => q) 2 (initSt 0 4)).x 3) :=
  muller_C1 (fun q => q) (initSt 0 4) 2 (by omega)

/-- C2: on an accepted run, before the first loop iteration the
tolerance is `tol = 0.5·10^(-n)` (equivalently `1/(2·10^n)` for the
positive digit count `n`), `x[0]`, `x[1]` are the user points,
`x[2] = (x[0]+x[1])/2`, `y[0..2]` are the `f` values of `x[0..2]` for
`f(x) = x^6-2`, and `c[0] = (y[1]-y[0])/(x[1]-x[0])`. -/
theorem muller_C2 (inp : Input) (hv : validInput inp) :
    tolOf inp.n = (0.5 : ℚ) * (10 : ℚ) ^ (-inp.n) ∧
    tolOf inp.n = 1 / (2 * (10 : ℚ) ^ inp.n.toNat) ∧
    (initSt inp.x0 inp.x1).x 0 = inp.x0 ∧
    (initSt inp.x0 inp.x1).x 1 = inp.x1 ∧
    (initSt inp.x0 inp.x1).x 2 = (inp.x0 + inp.x1) / 2 ∧
    (initSt inp.x0 inp.x1).y 0 = fn ((initSt inp.x0 inp.x1).x 0) ∧
    (initSt inp.x0 inp.x1).y 1 = fn ((initSt inp.x0 inp.x1).x 1) ∧
    (initSt inp.x0 inp.x1).y 2 = fn ((initSt inp.x0 inp.x1).x 2) ∧
    (initSt inp.x0 inp.x1).c 0 =
      ((initSt inp.x0 inp.x1).y 1 - (initSt inp.x0 inp.x1).y 0) /
        ((initSt inp.x0 inp.x1).x 1 - (initSt inp.x0 inp.x1).x 0) := by
  obtain ⟨h1, h2, h3, h4, h5⟩ := hv
  refine ⟨rfl, ?_, initSt_x0 _ _, initSt_x1 _ _, initSt_x2 _ _, ?_, ?_, ?_, ?_⟩
  · obtain ⟨t, ht⟩ : ∃ t : ℕ, inp.n = (t : ℤ) := ⟨inp.n.toNat, (Int.toNat_of_nonneg (by omega)).symm⟩
    rw [ht, tolOf, zpow_neg, zpow_natCast, Int.toNat_natCast]
    rw [eq_div_iff (by positivity)]
    have hpow : (0:ℚ) < 10 ^ t := by positivity
    field_simp
    ring
  · rw [initSt_y0, initSt_x0]
  · rw [initSt_y1, initSt_x1]
  · rw [initSt_y2, initSt_x2]
  · rw [initSt_c0, initSt_y1, initSt_y0, initSt_x1, initSt_x0]

/-- witness for C2 at the documented example input `x0 = 1`, `x1 = 2`,
20 iterations, 15 tolerance digits. -/
theorem muller_C2_w :
    tolOf 15 = (0.5 : ℚ) * (10 : ℚ) ^ (-(15:ℤ)) ∧
    tolOf 15 = 1 / (2 * (10 : ℚ) ^ (15:ℤ).toNat) ∧
    (initSt 1 2).x 0 = 1 ∧
    (initSt 1 2).x 1 = 2 ∧
    (initSt 1 2).x 2 = (1 + 2) / 2 ∧
    (initSt 1 2).y 0 = fn ((initSt 1 2).x 0) ∧
    (initSt 1 2).y 1 = fn ((initSt 1 2).x 1) ∧
    (initSt 1 2).y 2 = fn ((initSt 1 2).x 2) ∧
    (initSt 1 2).c 0 =
      ((initSt 1 2).y 1 - (initSt 1 2).y 0) / ((initSt 1 2).x 1 - (initSt 1 2).x 0) :=
  muller_C2 { x0 := 1, x1 := 2, usr_iters := 20, n := 15 } (by decide)

/-- C3: with all allocations succeeding, the program exits with the
(shared, nonzero) failure status before the solve exactly when one of
the three validation violations holds; the checks fire in order —
`x0 = x1` after two reads (before the iterations prompt), the iteration
range after three reads (before the tolerance prompt), the tolerance
range after four — each with its specific message; and the boundary
values 3 and 1000000 iterations and 1 and 40 tolerance digits are
accepted while 2 and 1000001 iterations and 0 and 41 tolerance digits
are rejected. -/
theorem muller_C3 (sqrtf : ℚ → ℚ) (inp : Input) :
    ((run sqrtf allocAll inp).exit = EXIT_FAILURE ↔ ¬ validInput inp) ∧
    EXIT_FAILURE ≠ EXIT_SUCCESS ∧
    (inp.x0 = inp.x1 →
      (run sqrtf allocAll inp).msgs = ["Values x0, x1 should be different."] ∧
      (run sqrtf allocAll inp).reads = 2 ∧
      (run sqrtf allocAll inp).exit = EXIT_FAILURE) ∧
    (inp.x0 ≠ inp.x1 → (inp.usr_iters ≤ 2 ∨ inp.usr_iters > MAX_ITERATIONS) →
      (run sqrtf allocAll inp).msgs = ["Iterations value: 2<i<=1000000"] ∧
      (run sqrtf allocAll inp).reads = 3 ∧
      (run sqrtf allocAll inp).exit = EXIT_FAILURE) ∧
    (inp.x0 ≠ inp.x1 → 2 < inp.usr_iters → inp.usr_iters ≤ MAX_ITERATIONS →
      (inp.n ≤ 0 ∨ inp.n > MAX_TOLERANCES) →
      (run sqrtf allocAll inp).msgs = ["Tolerance value: 0<t<=40"] ∧
      (run sqrtf allocAll inp).reads = 4 ∧
      (run sqrtf allocAll inp).exit = EXIT_FAILURE) ∧
    (inp.x0 ≠ inp.x1 → 0 < inp.n → inp.n ≤ MAX_TOLERANCES →
      (run sqrtf allocAll { inp with usr_iters := 3 }).exit = EXIT_SUCCESS ∧
      (run sqrtf allocAll { inp with usr_iters := 1000000 }).exit = EXIT_SUCCESS ∧
      (run sqrtf allocAll { inp with usr_iters := 2 }).exit = EXIT_FAILURE ∧
      (run sqrtf allocAll { inp with usr_iters := 1000001 }).exit = EXIT_FAILURE) ∧
    (inp.x0 ≠ inp.x1 → 2 < inp.usr_iters → inp.usr_iters ≤ MAX_ITERATIONS →
      (run sqrtf allocAll { inp with n := 1 }).exit = EXIT_SUCCESS ∧
      (run sqrtf allocAll { inp with n := 40 }).exit = EXIT_SUCCESS ∧
      (run sqrtf allocAll { inp with n := 0 }).exit = EXIT_FAILURE ∧
      (run sqrtf allocAll { inp with n := 41 }).exit = EXIT_FAILURE) := by
  refine ⟨⟨?_, ?_⟩, by decide, ?_, ?_, ?_, ?_, ?_⟩
  · intro hf hv
    rw [run_valid_eq sqrtf inp hv] at hf
    exact (by decide : ¬ (EXIT_SUCCESS = EXIT_FAILURE)) hf
  · intro hnv
    by_cases hx : inp.x0 = inp.x1
    · rw [run_dup_eq sqrtf allocAll inp hx]
    · by_cases hit : inp.usr_iters ≤ 2 ∨ inp.usr_iters > MAX_ITERATIONS
      · rw [run_iterbad_eq sqrtf allocAll inp hx hit]
      · by_cases hn : inp.n ≤ 0 ∨ inp.n > MAX_TOLERANCES
        · rw [run_tolbad_eq sqrtf allocAll inp hx hit hn]
        · exact absurd ⟨hx, by omega, by omega, by omega, by omega⟩ hnv
  · intro hx
    rw [run_dup_eq sqrtf allocAll inp hx]
    exact ⟨rfl, rfl, rfl⟩
  · intro hx hit
    rw [run_iterbad_eq sqrtf allocAll inp hx hit]
    refine ⟨by decide, rfl, rfl⟩
  · intro hx h2 h3 hn
    rw [run_tolbad_eq sqrtf allocAll inp hx (by omega) hn]
    refine ⟨by decide, rfl, rfl⟩
  · intro hx h4 h5
    refine ⟨?_, ?_, ?_, ?_⟩
    · rw [run_valid_eq sqrtf { inp with usr_iters := 3 }
        ⟨hx, (by decide : (2:ℤ) < 3), (by decide : (3:ℤ) ≤ MAX_ITERATIONS), h4, h5⟩]
    · rw [run_valid_eq sqrtf { inp with usr_iters := 1000000 }
        ⟨hx, (by decide : (2:ℤ) < 1000000), (by decide : (1000000:ℤ) ≤ MAX_ITERATIONS), h4, h5⟩]
    · rw [run_iterbad_eq sqrtf allocAll { inp with usr_iters := 2 } hx
        (Or.inl (by decide : (2:ℤ) ≤ 2))]
    · rw [run_iterbad_eq sqrtf allocAll { inp with usr_iters := 1000001 } hx
        (Or.inr (by decide : (1000001:ℤ) > MAX_ITERATIONS))]
  · intro hx h2 h3
    refine ⟨?_, ?_, ?_, ?_⟩
    · rw [run_valid_eq sqrtf { inp with n := 1 }
        ⟨hx, h2, h3, (by decide : (0:ℤ) < 1), (by decide : (1:ℤ) ≤ MAX_TOLERANCES)⟩]
    · rw [run_valid_eq sqrtf { inp with n := 40 }
        ⟨hx, h2, h3, (by decide : (0:ℤ) < 40), (by decide : (40:ℤ) ≤ MAX_TOLERANCES)⟩]
    · rw [run_tolbad_eq sqrtf allocAll { inp with n := 0 } hx
        (show ¬ (inp.usr_iters ≤ 2 ∨ inp.usr_iters > MAX_ITERATIONS) from
          fun hor => hor.elim (fun h => by omega) (fun h => absurd h3 (not_le.mpr h)))
        (Or.inl (by decide : (0:ℤ) ≤ 0))]
    · rw [run_tolbad_eq sqrtf allocAll { inp with n := 41 } hx
        (show ¬ (inp.usr_iters ≤ 2 ∨ inp.usr_iters > MAX_ITERATIONS) from
          fun hor => hor.elim (fun h => by omega) (fun h => absurd h3 (not_le.mpr h)))
        (Or.inr (by decide : (41:ℤ) > MAX_TOLERANCES))]

/-- witness for C3: each validation branch and two boundary values
exercised at concrete inputs. -/
theorem muller_C3_w :
    (run (fun q => q) allocAll { x0 := 1, x1 := 1, usr_iters := 5, n := 7 }).msgs
      = ["Values x0, x1 should be different."] ∧
    (run (fun q => q) allocAll { x0 := 1, x1 := 2, usr_iters := 2, n := 7 }).msgs
      = ["Iterations value: 2<i<=1000000"] ∧
    (run (fun q => q) allocAll { x0 := 1, x1 := 2, usr_iters := 5, n := 0 }).msgs
      = ["Tolerance value: 0<t<=40"] ∧
    (run (fun q => q) allocAll { x0 := 1, x1 := 2, usr_iters := 3, n := 7 }).exit
      = EXIT_SUCCESS ∧
    (run (fun q => q) allocAll { x0 := 1, x1 := 2, usr_iters := 5, n := 41 }).exit
      = EXIT_FAILURE := by
  refine ⟨((muller_C3 (fun q => q) { x0 := 1, x1 := 1, usr_iters := 5, n := 7 }).2.2.1 rfl).1,
    ?_, ?_, ?_, ?_⟩
  · exact ((muller_C3 (fun q => q) { x0 := 1, x1 := 2, usr_iters := 2, n := 7 }).2.2.2.1
      (by norm_num) (by norm_num)).1
  · exact ((muller_C3 (fun q => q) { x0 := 1, x1 := 2, usr_iters := 5, n := 0 }).2.2.2.2.1
      (by norm_num) (by norm_num) (by rw [MAX_ITERATIONS]; norm_num) (by norm_num)).1
  · exact ((muller_C3 (fun q => q) { x0 := 1, x1 := 2, usr_iters := 9, n := 7 }).2.2.2.2.2.1
      (by norm_num) (by norm_num) (by rw [MAX_TOLERANCES]; norm_num)).1
  · exact ((muller_C3 (fun q => q) { x0 := 1, x1 := 2, usr_iters := 5, n := 9 }).2.2.2.2.2.2
      (by norm_num) (by norm_num) (by rw [MAX_ITERATIONS]; norm_num)).2.2.2

/-- C4: a validated run prints exactly one of the two outcome messages;
the convergence message is printed iff some loop iteration within the
budget passes the tolerance test (and then the loop records the first
such step as the last one and stops); the non-convergence message is
printed iff the post-loop test — last recorded index at least
`usr_iters - 1` and flag false — holds. -/
theorem muller_C4 (sqrtf : ℚ → ℚ) (inp : Input) (hv : validInput inp) :
    ((convMsg ∈ (run sqrtf allocAll inp).msgs) ↔
      (∃ k, k < inp.usr_iters.toNat - 2 ∧
        stepCond sqrtf (tolOf inp.n) (2+k) (plainIter sqrtf k 2 (initSt inp.x0 inp.x1)))) ∧
    ((nonconvMsg ∈ (run sqrtf allocAll inp).msgs) ↔
      ¬ (∃ k, k < inp.usr_iters.toNat - 2 ∧
        stepCond sqrtf (tolOf inp.n) (2+k) (plainIter sqrtf k 2 (initSt inp.x0 inp.x1)))) ∧
    ¬ (convMsg ∈ (run sqrtf allocAll inp).msgs ∧
        nonconvMsg ∈ (run sqrtf allocAll inp).msgs) ∧
    (convMsg ∈ (run sqrtf allocAll inp).msgs ∨
        nonconvMsg ∈ (run sqrtf allocAll inp).msgs) ∧
    ((nonconvMsg ∈ (run sqrtf allocAll inp).msgs) ↔
      (∃ j, (solveSt sqrtf inp).iters = some j ∧ inp.usr_iters.toNat - 1 ≤ j ∧
        (solveSt sqrtf inp).find_root = false)) ∧
    (∀ k1, k1 < inp.usr_iters.toNat - 2 →
      stepCond sqrtf (tolOf inp.n) (2+k1) (plainIter sqrtf k1 2 (initSt inp.x0 inp.x1)) →
      (∀ m, m < k1 →
        ¬ stepCond sqrtf (tolOf inp.n) (2+m) (plainIter sqrtf m 2 (initSt inp.x0 inp.x1))) →
      (solveSt sqrtf inp).iters = some (2+k1)) := by
  have hne : convMsg ≠ nonconvMsg := by decide
  have hmsgs : (run sqrtf allocAll inp).msgs = solveMsgs sqrtf inp := by
    rw [run_valid_eq sqrtf inp hv]
  rcases solve_cases sqrtf inp hv with
    ⟨hnone, hsolve, hfr, hit, hmsg⟩ | ⟨k0, hk0, hc, hmin, hsolve, hfr, hit, hmsg⟩
  · rw [hmsgs, hmsg]
    refine ⟨?_, ?_, ?_, ?_, ?_, ?_⟩
    · exact iff_of_false (by simp [hne]) (fun ⟨k, hk, hck⟩ => hnone k hk hck)
    · exact iff_of_true (by simp) (fun ⟨k, hk, hck⟩ => hnone k hk hck)
    · intro hboth
      exact (by simp [hne] : convMsg ∉ [nonconvMsg]) hboth.1
    · right
      simp
    · exact iff_of_true (by simp) ⟨inp.usr_iters.toNat - 1, hit, le_refl _, hfr⟩
    · intro k1 hk1 hck1 _
      exact absurd hck1 (hnone k1 hk1)
  · rw [hmsgs, hmsg]
    refine ⟨?_, ?_, ?_, ?_, ?_, ?_⟩
    · exact iff_of_true (by simp) ⟨k0, hk0, hc⟩
    · exact iff_of_false (by simp [Ne.symm hne]) (fun hn => hn ⟨k0, hk0, hc⟩)
    · intro hboth
      exact (by simp [Ne.symm hne] : nonconvMsg ∉ [convMsg]) hboth.2
    · left
      simp
    · refine iff_of_false (by simp [Ne.symm hne]) ?_
      rintro ⟨j, hj, hge, hfr2⟩
      exact absurd (hfr.symm.trans hfr2) (by decide)
    · intro k1 hk1 hck1 hmin1
      have hkk : k1 = k0 := by
        by_contra hne2
        rcases Nat.lt_or_ge k1 k0 with h | h
        · exact hmin k1 h hck1
        · exact hmin1 k0 (by omega) hc
      rw [hkk]
      exact hit

/-- witness for C4: for `x0 = 0`, `x1 = 4`, 3 iterations, 1 tolerance
digit (and `sqrt` read as the identity), exactly one outcome message is
printed. -/
theorem muller_C4_w :
    convMsg ∈ (run (fun q => q) allocAll
        { x0 := 0, x1 := 4, usr_iters := 3, n := 1 }).msgs ∨
    nonconvMsg ∈ (run (fun q => q) allocAll
        { x0 := 0, x1 := 4, usr_iters := 3, n := 1 }).msgs :=
  (muller_C4 (fun q => q) { x0 := 0, x1 := 4, usr_iters := 3, n := 1 } (by decide)).2.2.2.1

/-- C5: on a validated run the printed table has exactly
(last executed step index + 1) rows; that count reaches the requested
iteration count exactly when the run never converged or converged at the
last possible step; and row `j` (0-based) shows the 1-based step number
`j+1` together with `x[j]`, `y[j]`, `d[j]`, `c[j]`. -/
theorem muller_C5 (sqrtf : ℚ → ℚ) (inp : Input) (hv : validInput inp) :
    ∃ last, (solveSt sqrtf inp).iters = some last ∧
      (run sqrtf allocAll inp).table.length = last + 1 ∧
      ((run sqrtf allocAll inp).table.length = inp.usr_iters.toNat ↔
        ((solveSt sqrtf inp).find_root = false ∨
         ((solveSt sqrtf inp).find_root = true ∧ last = inp.usr_iters.toNat - 1))) ∧
      (∀ j (hj : j < (run sqrtf allocAll inp).table.length),
        (run sqrtf allocAll inp).table.get ⟨j, hj⟩ =
          { stepNo := j + 1, rx := (solveSt sqrtf inp).x j, ry := (solveSt sqrtf inp).y j,
            rd := (solveSt sqrtf inp).d j, rc := (solveSt sqrtf inp).c j }) := by
  have hN : 3 ≤ inp.usr_iters.toNat := valid_N inp hv
  have htab : (run sqrtf allocAll inp).table = tableRows (solveSt sqrtf inp) := by
    rw [run_valid_eq sqrtf inp hv]
  rcases solve_cases sqrtf inp hv with
    ⟨hnone, hsolve, hfr, hit, hmsg⟩ | ⟨k0, hk0, hc, hmin, hsolve, hfr, hit, hmsg⟩
  · refine ⟨inp.usr_iters.toNat - 1, hit, ?_, ?_, ?_⟩
    · rw [htab, tableRows_length _ _ hit]
    · rw [htab, tableRows_length _ _ hit]
      exact iff_of_true (by omega) (Or.inl hfr)
    · intro j
      rw [htab]
      intro hj
      exact tableRows_get _ _ hit j hj
  · refine ⟨2 + k0, hit, ?_, ?_, ?_⟩
    · rw [htab, tableRows_length _ _ hit]
    · rw [htab, tableRows_length _ _ hit]
      constructor
      · intro hl
        exact Or.inr ⟨hfr, by omega⟩
      · rintro (hf | ⟨-, hl⟩)
        · exact absurd (hfr.symm.trans hf) (by decide)
        · omega
    · intro j
      rw [htab]
      intro hj
      exact tableRows_get _ _ hit j hj

/-- witness for C5 at `x0 = 0`, `x1 = 4`, 3 iterations, 1 tolerance
digit, `sqrt` read as the identity. -/
theorem muller_C5_w :
    ∃ last,
      (solveSt (fun q => q) { x0 := 0, x1 := 4, usr_iters := 3, n := 1 }).iters = some last ∧
      (run (fun q => q) allocAll { x0 := 0, x1 := 4, usr_iters := 3, n := 1 }).table.length
        = last + 1 ∧
      ((run (fun q => q) allocAll { x0 := 0, x1 := 4, usr_iters := 3, n := 1 }).table.length
          = (3:ℤ).toNat ↔
        ((solveSt (fun q => q) { x0 := 0, x1 := 4, usr_iters := 3, n := 1 }).find_root = false ∨
         ((solveSt (fun q => q) { x0 := 0, x1 := 4, usr_iters := 3, n := 1 }).find_root = true ∧
          last = (3:ℤ).toNat - 1))) ∧
      (∀ j (hj : j < (run (fun q => q) allocAll
          { x0 := 0, x1 := 4, usr_iters := 3, n := 1 }).table.length),
        (run (fun q => q) allocAll { x0 := 0, x1 := 4, usr_iters := 3, n := 1 }).table.get
            ⟨j, hj⟩ =
          { stepNo := j + 1,
            rx := (solveSt (fun q => q) { x0 := 0, x1 := 4, usr_iters := 3, n := 1 }).x j,
            ry := (solveSt (fun q => q) { x0 := 0, x1 := 4, usr_iters := 3, n := 1 }).y j,
            rd := (solveSt (fun q => q) { x0 := 0, x1 := 4, usr_iters := 3, n := 1 }).d j,
            rc := (solveSt (fun q => q) { x0 := 0, x1 := 4, usr_iters := 3, n := 1 }).c j }) :=
  muller_C5 (fun q => q) { x0 := 0, x1 := 4, usr_iters := 3, n := 1 } (by decide)

/-- C7: numeric anomalies never abort a validated run: whatever values
the arithmetic produces (the statement is universally quantified over
the interpretation of `sqrt`, and no division is guarded), the program
exits with status `EXIT_SUCCESS = 0`; if no iteration passes the
tolerance test the loop still runs its full budget (last step index
`usr_iters - 1`); and every printed row shows the stored history values
verbatim, with no filtering. -/
theorem muller_C7 (sqrtf : ℚ → ℚ) (inp : Input) (hv : validInput inp) :
    (run sqrtf allocAll inp).exit = EXIT_SUCCESS ∧
    EXIT_SUCCESS = 0 ∧
    ((∀ k, k < inp.usr_iters.toNat - 2 →
        ¬ stepCond sqrtf (tolOf inp.n) (2+k) (plainIter sqrtf k 2 (initSt inp.x0 inp.x1))) →
      (solveSt sqrtf inp).iters = some (inp.usr_iters.toNat - 1)) ∧
    (∀ j (hj : j < (run sqrtf allocAll inp).table.length),
      (run sqrtf allocAll inp).table.get ⟨j, hj⟩ =
        { stepNo := j + 1, rx := (solveSt sqrtf inp).x j, ry := (solveSt sqrtf inp).y j,
          rd := (solveSt sqrtf inp).d j, rc := (solveSt sqrtf inp).c j }) := by
  have htab : (run sqrtf allocAll inp).table = tableRows (solveSt sqrtf inp) := by
    rw [run_valid_eq sqrtf inp hv]
  refine ⟨by rw [run_valid_eq sqrtf inp hv], rfl, ?_, ?_⟩
  · intro hnone2
    rcases solve_cases sqrtf inp hv with
      ⟨hnone, hsolve, hfr, hit, hmsg⟩ | ⟨k0, hk0, hc, hmin, hsolve, hfr, hit, hmsg⟩
    · exact hit
    · exact absurd hc (hnone2 k0 hk0)
  · intro j
    rw [htab]
    intro hj
    rcases solve_cases sqrtf inp hv with
      ⟨hnone, hsolve, hfr, hit, hmsg⟩ | ⟨k0, hk0, hc, hmin, hsolve, hfr, hit, hmsg⟩
    · exact tableRows_get _ _ hit j hj
    · exact tableRows_get _ _ hit j hj

/-- witness for C7: a validated run that does not converge (budget 3,
40 tolerance digits) still exits successfully. -/
theorem muller_C7_w :
    (run (fun q => q) allocAll { x0 := 0, x1 := 4, usr_iters := 3, n := 40 }).exit
      = EXIT_SUCCESS :=
  (muller_C7 (fun q => q) { x0 := 0, x1 := 4, usr_iters := 3, n := 40 } (by decide)).1

/-- C9: on validated input the loop body runs at least once, so the
`iters` variable (embedded as `Option ℕ`, `none` = never assigned; it
starts out `none` before the loop) is always assigned — to some step
index at least 2 — before the post-loop test reads it. -/
theorem muller_C9 (sqrtf : ℚ → ℚ) (inp : Input) (hv : validInput inp) :
    (initSt inp.x0 inp.x1).iters = none ∧
    (solveSt sqrtf inp).iters ≠ none ∧
    ∃ j, (solveSt sqrtf inp).iters = some j ∧ 2 ≤ j ∧ j ≤ inp.usr_iters.toNat - 1 := by
  have hN : 3 ≤ inp.usr_iters.toNat := valid_N inp hv
  rcases solve_cases sqrtf inp hv with
    ⟨hnone, hsolve, hfr, hit, hmsg⟩ | ⟨k0, hk0, hc, hmin, hsolve, hfr, hit, hmsg⟩
  · exact ⟨rfl, by rw [hit]; exact Option.some_ne_none _,
      inp.usr_iters.toNat - 1, hit, by omega, by omega⟩
  · exact ⟨rfl, by rw [hit]; exact Option.some_ne_none _,
      2 + k0, hit, by omega, by omega⟩

/-- witness for C9 at `x0 = 0`, `x1 = 4`, 3 iterations, 1 tolerance
digit. -/
theorem muller_C9_w :
    (initSt 0 4).iters = none ∧
    (solveSt (fun q => q) { x0 := 0, x1 := 4, usr_iters := 3, n := 1 }).iters ≠ none ∧
    ∃ j, (solveSt (fun q => q) { x0 := 0, x1 := 4, usr_iters := 3, n := 1 }).iters = some j ∧
      2 ≤ j ∧ j ≤ (3:ℤ).toNat - 1 :=
  muller_C9 (fun q => q) { x0 := 0, x1 := 4, usr_iters := 3, n := 1 } (by decide)

theorem step_y_fn (sqrtf : ℚ → ℚ) (i : ℕ) (st : St) (hi : 2 ≤ i) :
    (step sqrtf i st).y (i+1) = fn ((step sqrtf i st).x (i+1)) := by
  obtain ⟨k, rfl⟩ : ∃ k, i = k + 2 := ⟨i - 2, by omega⟩
  have h3 : k + 2 + 1 = k + 3 := by omega
  rw [h3, step_eq]
  show upd st.y (k+3) (fn (xNext sqrtf st (k+2))) (k+3) =
    fn (upd st.x (k+3) (xNext sqrtf st (k+2)) (k+3))
  rw [upd_self, upd_self]

/-- C10: on a validated run the final executed iteration (at the last
recorded index) writes `x[last+1]` and `y[last+1] = f(x[last+1])` into
the history, yet the printed table has exactly `last+1` rows covering
indices `0..last` only, so the newest approximation is never shown; and
the `d` and `c` columns of the last printed row (together with
`d[last-1]`) still hold the zero initialisation, since iteration `i`
writes only `d[i-2]` and `c[i-1]`. -/
theorem muller_C10 (sqrtf : ℚ → ℚ) (inp : Input) (hv : validInput inp) :
    ∃ last, (solveSt sqrtf inp).iters = some last ∧
      (solveSt sqrtf inp).x (last+1) =
        (step sqrtf last
          (plainIter sqrtf (last-2) 2 (initSt inp.x0 inp.x1))).x (last+1) ∧
      (solveSt sqrtf inp).y (last+1) = fn ((solveSt sqrtf inp).x (last+1)) ∧
      (run sqrtf allocAll inp).table.length = last + 1 ∧
      (∀ j, j < (run sqrtf allocAll inp).table.length → j ≤ last) ∧
      (solveSt sqrtf inp).d last = 0 ∧
      (solveSt sqrtf inp).d (last - 1) = 0 ∧
      (solveSt sqrtf inp).c last = 0 := by
  have hN : 3 ≤ inp.usr_iters.toNat := valid_N inp hv
  have htab : (run sqrtf allocAll inp).table = tableRows (solveSt sqrtf inp) := by
    rw [run_valid_eq sqrtf inp hv]
  have hd0 : ∀ m, 2 ≤ m + 2 → (initSt inp.x0 inp.x1).d m = 0 :=
    fun m _ => initSt_d _ _ m
  have hc0 : ∀ m, 2 ≤ m + 1 → (initSt inp.x0 inp.x1).c m = 0 :=
    fun m hm => initSt_c_zero _ _ m (by omega)
  rcases solve_cases sqrtf inp hv with
    ⟨hnone, hsolve, hfr, hit, hmsg⟩ | ⟨k0, hk0, hc, hmin, hsolve, hfr, hit, hmsg⟩
  · have hdz := plainIter_d_zero sqrtf (inp.usr_iters.toNat - 2) 2
      (initSt inp.x0 inp.x1) (by omega) hd0
    have hcz := plainIter_c_zero sqrtf (inp.usr_iters.toNat - 2) 2
      (initSt inp.x0 inp.x1) (by omega) hc0
    have hstep : plainIter sqrtf (inp.usr_iters.toNat - 2) 2 (initSt inp.x0 inp.x1)
        = step sqrtf (inp.usr_iters.toNat - 1)
            (plainIter sqrtf (inp.usr_iters.toNat - 1 - 2) 2 (initSt inp.x0 inp.x1)) := by
      have h := plainIter_succ_last sqrtf (inp.usr_iters.toNat - 3) 2 (initSt inp.x0 inp.x1)
      rw [(by omega : inp.usr_iters.toNat - 2 = inp.usr_iters.toNat - 3 + 1), h,
        (by omega : 2 + (inp.usr_iters.toNat - 3) = inp.usr_iters.toNat - 1),
        (by omega : inp.usr_iters.toNat - 1 - 2 = inp.usr_iters.toNat - 3)]
    refine ⟨inp.usr_iters.toNat - 1, hit, ?_, ?_, ?_, ?_, ?_, ?_, ?_⟩
    · rw [hsolve, hstep]
    · rw [hsolve, hstep]
      exact step_y_fn sqrtf (inp.usr_iters.toNat - 1) _ (by omega)
    · rw [htab, tableRows_length _ _ hit]
    · intro j hj
      rw [htab, tableRows_length _ _ hit] at hj
      omega
    · rw [hsolve]
      exact hdz (inp.usr_iters.toNat - 1) (by omega)
    · rw [hsolve]
      exact hdz (inp.usr_iters.toNat - 1 - 1) (by omega)
    · rw [hsolve]
      exact hcz (inp.usr_iters.toNat - 1) (by omega)
  · have hdz := plainIter_d_zero sqrtf (k0+1) 2 (initSt inp.x0 inp.x1) (by omega) hd0
    have hcz := plainIter_c_zero sqrtf (k0+1) 2 (initSt inp.x0 inp.x1) (by omega) hc0
    have hstep := plainIter_succ_last sqrtf k0 2 (initSt inp.x0 inp.x1)
    refine ⟨2 + k0, hit, ?_, ?_, ?_, ?_, ?_, ?_, ?_⟩
    · rw [hsolve]
      show (plainIter sqrtf (k0+1) 2 (initSt inp.x0 inp.x1)).x (2+k0+1) = _
      rw [hstep, (by omega : 2 + k0 - 2 = k0)]
    · rw [hsolve]
      show (plainIter sqrtf (k0+1) 2 (initSt inp.x0 inp.x1)).y (2+k0+1) =
        fn ((plainIter sqrtf (k0+1) 2 (initSt inp.x0 inp.x1)).x (2+k0+1))
      rw [hstep]
      exact step_y_fn sqrtf (2+k0) _ (by omega)
    · rw [htab, tableRows_length _ _ hit]
    · intro j hj
      rw [htab, tableRows_length _ _ hit] at hj
      omega
    · rw [hsolve]
      show (plainIter sqrtf (k0+1) 2 (initSt inp.x0 inp.x1)).d (2+k0) = 0
      exact hdz (2+k0) (by omega)
    · rw [hsolve]
      show (plainIter sqrtf (k0+1) 2 (initSt inp.x0 inp.x1)).d (2+k0-1) = 0
      exact hdz (2+k0-1) (by omega)
    · rw [hsolve]
      show (plainIter sqrtf (k0+1) 2 (initSt inp.x0 inp.x1)).c (2+k0) = 0
      exact hcz (2+k0) (by omega)

/-- witness for C10 at `x0 = 0`, `x1 = 4`, 3 iterations, 1 tolerance
digit. -/
theorem muller_C10_w :
    ∃ last,
      (solveSt (fun q => q) { x0 := 0, x1 := 4, usr_iters := 3, n := 1 }).iters = some last ∧
      (solveSt (fun q => q) { x0 := 0, x1 := 4, usr_iters := 3, n := 1 }).x (last+1) =
        (step (fun q => q) last (plainIter (fun q => q) (last-2) 2 (initSt 0 4))).x (last+1) ∧
      (solveSt (fun q => q) { x0 := 0, x1 := 4, usr_iters := 3, n := 1 }).y (last+1) =
        fn ((solveSt (fun q => q) { x0 := 0, x1 := 4, usr_iters := 3, n := 1 }).x (last+1)) ∧
      (run (fun q => q) allocAll { x0 := 0, x1 := 4, usr_iters := 3, n := 1 }).table.length
        = last + 1 ∧
      (∀ j, j < (run (fun q => q) allocAll
          { x0 := 0, x1 := 4, usr_iters := 3, n := 1 }).table.length → j ≤ last) ∧
      (solveSt (fun q => q) { x0 := 0, x1 := 4, usr_iters := 3, n := 1 }).d last = 0 ∧
      (solveSt (fun q => q) { x0 := 0, x1 := 4, usr_iters := 3, n := 1 }).d (last - 1) = 0 ∧
      (solveSt (fun q => q) { x0 := 0, x1 := 4, usr_iters := 3, n := 1 }).c last = 0 :=
  muller_C10 (fun q => q) { x0 := 0, x1 := 4, usr_iters := 3, n := 1 } (by decide)

/-- counterexample to C8 as stated: on the validated run `x0 = 1`,
`x1 = 2`, 3 iterations, 1 tolerance digit, where the `x` array's
allocation succeeds but the `y` array's fails, the program prints the
allocation-failure diagnostic and exits without any release event — the
successfully allocated `x` array is never freed (the source returns
`EXIT_FAILURE` from the allocation check without calling `free`). -/
theorem muller_C8_cex :
    Ev.allocEv "x" 4 true ∈ (run (fun q => q)
      { ax := true, ay := false, ad := true, ac := true }
      { x0 := 1, x1 := 2, usr_iters := 3, n := 1 }).events ∧
    "Dynamic memory allocation problem (32 bytes)." ∈ (run (fun q => q)
      { ax := true, ay := false, ad := true, ac := true }
      { x0 := 1, x1 := 2, usr_iters := 3, n := 1 }).msgs ∧
    Ev.freeEv "x" ∉ (run (fun q => q)
      { ax := true, ay := false, ad := true, ac := true }
      { x0 := 1, x1 := 2, usr_iters := 3, n := 1 }).events ∧
    (run (fun q => q) { ax := true, ay := false, ad := true, ac := true }
      { x0 := 1, x1 := 2, usr_iters := 3, n := 1 }).exit = EXIT_FAILURE := by
  decide

/-- C8 amended: the four history arrays (each sized `usr_iters + 1`) are
all released before exit on every validated run in which all four
allocations succeed — converged or not — but on the allocation-failure
diagnostic path the program exits without releasing anything, leaking
whichever arrays were successfully allocated. -/
theorem muller_C8_amended (sqrtf : ℚ → ℚ) (a : AllocOk) (inp : Input) (hv : validInput inp) :
    arrSize inp = inp.usr_iters + 1 ∧
    (a.ax = true → a.ay = true → a.ad = true → a.ac = true →
      (run sqrtf a inp).events = allocEvents a inp ++ freeEvents ∧
      Ev.freeEv "x" ∈ (run sqrtf a inp).events ∧
      Ev.freeEv "y" ∈ (run sqrtf a inp).events ∧
      Ev.freeEv "d" ∈ (run sqrtf a inp).events ∧
      Ev.freeEv "c" ∈ (run sqrtf a inp).events) ∧
    ((a.ax = false ∨ a.ay = false ∨ a.ad = false ∨ a.ac = false) →
      (run sqrtf a inp).events = allocEvents a inp ∧
      ∀ nm, Ev.freeEv nm ∉ (run sqrtf a inp).events) := by
  refine ⟨rfl, ?_, ?_⟩
  · intro hax hay had hac
    have ha : a = allocAll := by
      cases a
      simp_all [allocAll]
    subst ha
    rw [run_valid_eq sqrtf inp hv]
    refine ⟨rfl, ?_, ?_, ?_, ?_⟩ <;> simp [allocEvents, freeEvents]
  · intro hfail
    obtain ⟨h1, h2, h3, h4, h5⟩ := hv
    rw [run_allocbad_eq sqrtf a inp h1
      (fun hor => hor.elim (fun h => by omega) (fun h => absurd h3 (not_le.mpr h)))
      (fun hor => hor.elim (fun h => by omega) (fun h => absurd h5 (not_le.mpr h))) hfail]
    refine ⟨rfl, ?_⟩
    intro nm
    simp [allocEvents]

/-- witness for the amended C8: on the all-allocations-succeed run the
trace ends with the four release events. -/
theorem muller_C8_amended_w :
    (run (fun q => q) allocAll { x0 := 1, x1 := 2, usr_iters := 3, n := 1 }).events
      = allocEvents allocAll { x0 := 1, x1 := 2, usr_iters := 3, n := 1 } ++ freeEvents ∧
    Ev.freeEv "x" ∈ (run (fun q => q) allocAll
      { x0 := 1, x1 := 2, usr_iters := 3, n := 1 }).events :=
  have h := (muller_C8_amended (fun q => q) allocAll
    { x0 := 1, x1 := 2, usr_iters := 3, n := 1 } (by decide)).2.1 rfl rfl rfl rfl
  ⟨h.1, h.2.1⟩

end Muller
